import Mathlib

/-!
Verification of the diag-transmission scoring core.

The embedding translates the Python modules `my_package/scoring.py`,
`my_package/questionnaire.py` and `my_package/diagnostic_model.py` into Lean.

Modelling conventions:
* Python `float` arithmetic is modelled by `Rat` (all values the scoring code
  produces from the documented answer shapes are exact decimals).
* A Python `dict` is modelled by an association list `List (String × α)` in
  insertion order; `dict` assignment `m[k] = v` is `dinsert` (update the first
  occurrence in place, else append), and `m.get(k, default)` is `List.lookup`
  with a default.
* The dynamic answer values the spec permits (integer, boolean, boolean-like
  string, null) are the inductive `Answer`; `Answer.none` is Python `None`,
  which is also what a missing key lookup produces.
* `raise ValueError(msg)` is `Except.error msg`; Python functions that can
  raise return `Except String _`.
* Python `int(s)` on a string is modelled by `parsePyInt` (strip whitespace,
  optional sign, decimal digits); `str.strip().lower()` by
  `String.trim`/`String.toLower` (ASCII-faithful, which covers the fixed
  affirmative token set).
* The mutable heap of `Domain` objects (needed for the deep-copy/no-mutation
  contract of `build_domains_for_sector`) is an explicit store `St`: a list of
  `Domain` values indexed by address, with `DOMAINS_COMMON` a dict from domain
  id to address.
-/

deriving instance DecidableEq for Except

namespace Diag

/-- `Question` dataclass of diagnostic_model.py (id, type "stars"/"boolean",
text, weight). -/
structure Question where
  id : String
  type : String
  text : String
  weight : Rat
deriving DecidableEq, Repr

/-- `Domain` dataclass of diagnostic_model.py. -/
structure Domain where
  id : String
  label : String
  description : String
  questions : List Question
deriving DecidableEq, Repr

/-- `SectorProfile` dataclass: extra questions per domain id. -/
structure SectorProfile where
  id : String
  label : String
  extra_questions : List (String × List Question)
deriving DecidableEq, Repr

/-- Dynamic answer value: Python `None`, `int`, `bool` or `str`. -/
inductive Answer where
  | none
  | int (n : Int)
  | bool (b : Bool)
  | str (s : String)
deriving DecidableEq, Repr

/-- Python `dict` assignment `m[k] = v`: replace the value at the first
occurrence of `k` keeping its position, else append `(k, v)`. -/
def dinsert {α : Type} : List (String × α) → String → α → List (String × α)
  | [], k, v => [(k, v)]
  | p :: rest, k, v => if p.1 = k then (k, v) :: rest else p :: dinsert rest k v

/-- Accumulates the decimal digits of `cs`; `none` if a non-digit occurs. -/
def parseDigitsAux : List Char → Nat → Option Nat
  | [], acc => some acc
  | c :: cs, acc =>
      if c.isDigit then parseDigitsAux cs (10 * acc + (c.toNat - 48)) else none

/-- Python `int(s)` on a string: surrounding whitespace stripped, optional
sign, at least one decimal digit (digit-group underscores are not modelled;
no claim depends on them). -/
def parsePyInt (s : String) : Option Int :=
  match s.trim.toList with
  | [] => none
  | '+' :: cs => if cs = [] then none else (parseDigitsAux cs 0).map Int.ofNat
  | '-' :: cs => if cs = [] then none else (parseDigitsAux cs 0).map (fun n => -(n : Int))
  | cs => (parseDigitsAux cs 0).map Int.ofNat

/-- Python `int(answer)` for the stars branch of `score_question`:
`int` stays, `bool` is 1/0, strings are parsed, `None` raises (→ `none`). -/
def intOfAnswer : Answer → Option Int
  | .none => none
  | .int n => some n
  | .bool b => some (if b then 1 else 0)
  | .str s => parsePyInt s

/-- Python truthiness `bool(answer)` for non-string values reaching the
boolean branch. -/
def pyTruthy : Answer → Bool
  | .none => false
  | .int n => n ≠ 0
  | .bool b => b
  | .str s => s ≠ ""

/-- The fixed affirmative token set of scoring.py. -/
def TRUTHY_TOKENS : List String := ["oui", "yes", "true", "1"]

/-- stars branch of `score_question`: `None` → 0.0, unparseable → 0.0,
else clamp to [0,5] and map by `(v / 5.0) * 100.0`. -/
def scoreStars (a : Answer) : Rat :=
  match a with
  | .none => 0
  | _ =>
    match intOfAnswer a with
    | Option.none => 0
    | some v => ((max 0 (min 5 v) : Int) : Rat) / 5 * 100

/-- boolean branch of `score_question`: strings are compared (trimmed,
lowercased) against `TRUTHY_TOKENS`; other values use Python truthiness. -/
def scoreBoolean (a : Answer) : Rat :=
  match a with
  | .str s => if TRUTHY_TOKENS.contains (s.trim.toLower) then 100 else 0
  | _ => if pyTruthy a then 100 else 0

/-- `score_question` of scoring.py: dispatch on the question type; an unknown
type raises `ValueError`. -/
def score_question (q : Question) (a : Answer) : Except String Rat :=
  if q.type = "stars" then .ok (scoreStars a)
  else if q.type = "boolean" then .ok (scoreBoolean a)
  else .error ("Type de question inconnu: " ++ q.type)

/-- `answers.get(q.id)`: a missing key yields Python `None`. -/
def lookupAnswer (answers : List (String × Answer)) (qid : String) : Answer :=
  (answers.lookup qid).getD Answer.none

/-- The accumulation loop of `score_domain`: total weighted score and total
weight over the question list. -/
def sumScores (answers : List (String × Answer)) :
    List Question → Except String (Rat × Rat)
  | [] => .ok (0, 0)
  | q :: qs => do
      let s ← score_question q (lookupAnswer answers q.id)
      let (ts, tw) ← sumScores answers qs
      .ok (s * q.weight + ts, q.weight + tw)

/-- `score_domain` of scoring.py: weighted mean of `score_question` over the
domain's questions; 0.0 when the total weight is 0. -/
def score_domain (d : Domain) (answers : List (String × Answer)) :
    Except String Rat := do
  let (ts, tw) ← sumScores answers d.questions
  if tw = 0 then pure 0 else pure (ts / tw)

/-- `all_answers.get(domain_id, {})`. -/
def lookupAns (all_answers : List (String × List (String × Answer)))
    (did : String) : List (String × Answer) :=
  (all_answers.lookup did).getD []

/-- The loop of `score_global`: builds the per-domain score dict and
accumulates sum and count over domains with a non-empty answer sub-map. -/
def scoreGlobalAux (A : List (String × List (String × Answer))) :
    List (String × Domain) → List (String × Rat) → Rat → Nat →
    Except String (List (String × Rat) × Rat × Nat)
  | [], m, s, c => .ok (m, s, c)
  | (did, d) :: rest, m, s, c => do
      let dans := lookupAns A did
      let sc ← score_domain d dans
      let m' := dinsert m did sc
      if dans.isEmpty then scoreGlobalAux A rest m' s c
      else scoreGlobalAux A rest m' (s + sc) (c + 1)

/-- `score_global` of scoring.py: per-domain scores plus the reserved
`"__global__"` entry (mean over domains with non-empty answers, else 0.0). -/
def score_global (domains : List (String × Domain))
    (A : List (String × List (String × Answer))) :
    Except String (List (String × Rat)) := do
  let (m, s, c) ← scoreGlobalAux A domains [] 0 0
  .ok (dinsert m "__global__" (if c > 0 then s / (c : Rat) else 0))

/-- Threshold `STRONG_THRESHOLD` of questionnaire.py. -/
def STRONG_THRESHOLD : Rat := 75

/-- Threshold `IMPROVE_THRESHOLD` of questionnaire.py. -/
def IMPROVE_THRESHOLD : Rat := 40

/-- `classify_domain` of questionnaire.py: "fort" (strong), "améliorer"
(to-improve) or "critique" (critical). -/
def classify_domain (score : Rat) : String :=
  if score ≥ STRONG_THRESHOLD then "fort"
  else if score ≥ IMPROVE_THRESHOLD then "améliorer"
  else "critique"

/-- One step of Python's stable `sorted(… , key=kv[1])`: inserts `p` after
every already-placed entry with a value ≤ its value. -/
def insertAsc (p : String × Rat) : List (String × Rat) → List (String × Rat)
  | [] => [p]
  | q :: qs => if q.2 ≤ p.2 then q :: insertAsc p qs else p :: q :: qs

/-- `sorted(scores.items(), key=kv[1])` (ascending by value, stable). -/
def sortAsc (l : List (String × Rat)) : List (String × Rat) :=
  l.foldl (fun acc p => insertAsc p acc) []

/-- One step of `sorted(…, key=kv[1], reverse=True)`. -/
def insertDesc (p : String × Rat) : List (String × Rat) → List (String × Rat)
  | [] => [p]
  | q :: qs => if p.2 ≤ q.2 then q :: insertDesc p qs else p :: q :: qs

/-- `sorted(scores.items(), key=kv[1], reverse=True)` (descending, stable). -/
def sortDesc (l : List (String × Rat)) : List (String × Rat) :=
  l.foldl (fun acc p => insertDesc p acc) []

/-- Shared loop of `extract_weak_points` / `extract_strong_points`: skip
domains with an empty answer sub-map, score the rest, keep those whose score
satisfies `keep`. -/
def selectScores (A : List (String × List (String × Answer)))
    (keep : Rat → Bool) (acc : List (String × Rat)) :
    List (String × Domain) → Except String (List (String × Rat))
  | [] => .ok acc
  | (did, d) :: rest => do
      let dans := lookupAns A did
      if dans.isEmpty then selectScores A keep acc rest
      else do
        let s ← score_domain d dans
        selectScores A keep (if keep s then dinsert acc did s else acc) rest

/-- `extract_weak_points` of questionnaire.py: domains with non-empty answers
classified other than "fort", sorted ascending by score. -/
def extract_weak_points (domains : List (String × Domain))
    (A : List (String × List (String × Answer))) :
    Except String (List (String × Rat)) := do
  let scores ← selectScores A (fun s => classify_domain s ≠ "fort") [] domains
  .ok (sortAsc scores)

/-- `extract_strong_points` of questionnaire.py: domains with non-empty
answers classified "fort", sorted descending by score. -/
def extract_strong_points (domains : List (String × Domain))
    (A : List (String × List (String × Answer))) :
    Except String (List (String × Rat)) := do
  let scores ← selectScores A (fun s => classify_domain s = "fort") [] domains
  .ok (sortDesc scores)

/-- Inner loop of `generate_empty_answers`: `d_answers[q.id] = None` for every
question, in order (dict assignment collapses duplicate ids). -/
def emptyAnswersForDomain (d : Domain) : List (String × Answer) :=
  d.questions.foldl (fun m q => dinsert m q.id Answer.none) []

/-- `generate_empty_answers` of questionnaire.py. -/
def generate_empty_answers (domains : List (String × Domain)) :
    List (String × List (String × Answer)) :=
  domains.foldl (fun r p => dinsert r p.1 (emptyAnswersForDomain p.2)) []

/-! ### The object store for `build_domains_for_sector`

`diagnostic_model.py` keeps the shared catalogue `DOMAINS_COMMON` as a dict of
mutable `Domain` objects and protects it with `copy.deepcopy`. To make the
no-mutation contract a real theorem, `Domain` objects live in an explicit
store `St` (a list of `Domain` values indexed by address); the catalogue is a
dict from domain id to address; `deepcopy` allocates fresh addresses, and
`questions.extend(...)` writes in place at an address. -/

/-- The heap of `Domain` objects. -/
structure St where
  heap : List Domain
deriving DecidableEq, Repr

/-- A dict of domain objects: id → address in the store. -/
def DomainRefs : Type := List (String × Nat)

/-- Reads the `Domain` object at address `a`. -/
def readD (st : St) (a : Nat) : Domain :=
  st.heap.getD a ⟨"", "", "", []⟩

/-- Allocates a fresh `Domain` object, returning its address. -/
def alloc (st : St) (d : Domain) : St × Nat :=
  (⟨st.heap ++ [d]⟩, st.heap.length)

/-- Overwrites the `Domain` object at address `a`. -/
def writeD (st : St) (a : Nat) (d : Domain) : St :=
  ⟨st.heap.set a d⟩

/-- `{k: copy.deepcopy(v) for k, v in DOMAINS_COMMON.items()}`: allocates a
fresh value-equal object for every entry. -/
def copyAll (st : St) : List (String × Nat) → St × List (String × Nat)
  | [] => (st, [])
  | (k, a) :: rest =>
      let (st1, a') := alloc st (readD st a)
      let (st2, rest') := copyAll st1 rest
      (st2, (k, a') :: rest')

/-- The extension loop of `build_domains_for_sector`: for each
`(domain_id, extra_qs)`, if `domain_id` is in the copied dict, extend that
object's question list in place; otherwise skip. -/
def applyExtensions (st : St) (domains : List (String × Nat)) :
    List (String × List Question) → St
  | [] => st
  | (did, qs) :: rest =>
      match domains.lookup did with
      | Option.none => applyExtensions st domains rest
      | some a =>
          let d := readD st a
          applyExtensions (writeD st a { d with questions := d.questions ++ qs })
            domains rest

/-- `build_domains_for_sector` of diagnostic_model.py over the explicit store:
deep-copies the common catalogue, returns it for `sector_id = None`, raises
`ValueError` on an unknown sector, else applies the sector's extensions to the
copy. -/
def build_domains_for_sector (st : St) (commonRefs : List (String × Nat))
    (sectors : List (String × SectorProfile)) (sector_id : Option String) :
    St × Except String (List (String × Nat)) :=
  let (st1, domains) := copyAll st commonRefs
  match sector_id with
  | Option.none => (st1, .ok domains)
  | some s =>
      match sectors.lookup s with
      | Option.none => (st1, .error ("Secteur inconnu: " ++ s))
      | some sector => (applyExtensions st1 domains sector.extra_questions, .ok domains)

/-- Dereferences a dict of domain objects to its value content. -/
def resolve (st : St) (refs : List (String × Nat)) : List (String × Domain) :=
  refs.map (fun p => (p.1, readD st p.2))

/-- Pure value-level counterpart of appending `qs` to the questions of the
first entry named `did` (no change when `did` is absent). -/
def extendAssoc : List (String × Domain) → String → List Question →
    List (String × Domain)
  | [], _, _ => []
  | p :: rest, did, qs =>
      if p.1 = did then (p.1, { p.2 with questions := p.2.questions ++ qs }) :: rest
      else p :: extendAssoc rest did qs

/-- Pure value-level counterpart of the extension loop. -/
def applyExtsPure (domains : List (String × Domain)) :
    List (String × List Question) → List (String × Domain)
  | [] => domains
  | (did, qs) :: rest => applyExtsPure (extendAssoc domains did qs) rest

/-- Pure value-level counterpart of `build_domains_for_sector` (deep copy is
the identity on values). -/
def buildPure (common : List (String × Domain))
    (sectors : List (String × SectorProfile)) (sector_id : Option String) :
    Except String (List (String × Domain)) :=
  match sector_id with
  | Option.none => .ok common
  | some s =>
      match sectors.lookup s with
      | Option.none => .error ("Secteur inconnu: " ++ s)
      | some sector => .ok (applyExtsPure common sector.extra_questions)

/-- The catalogue invariant of the data model: every question's kind tag is
`"stars"` (RATING) or `"boolean"` (BOOLEAN). -/
def WellTyped (d : Domain) : Prop :=
  ∀ q ∈ d.questions, q.type = "stars" ∨ q.type = "boolean"

instance (d : Domain) : Decidable (WellTyped d) := by
  unfold WellTyped; infer_instance

/-- The value of a successful scoring computation (0 as a don't-care default
on the error case, which the well-typedness hypotheses rule out). -/
def scoreVal (e : Except String Rat) : Rat :=
  e.toOption.getD 0

/-! ### Theorems -/

theorem scoreVal_ok (r : Rat) : scoreVal (.ok r) = r := rfl

theorem score_question_stars (q : Question) (h : q.type = "stars") (a : Answer) :
    score_question q a = .ok (scoreStars a) := by
  simp [score_question, h]

theorem score_question_bool (q : Question) (h : q.type = "boolean") (a : Answer) :
    score_question q a = .ok (scoreBoolean a) := by
  simp [score_question, h]

theorem score_question_isOk (q : Question)
    (h : q.type = "stars" ∨ q.type = "boolean") (a : Answer) :
    score_question q a = .ok (scoreVal (score_question q a)) := by
  rcases h with h | h
  · rw [score_question_stars q h]; rfl
  · rw [score_question_bool q h]; rfl

/-- C7: the core three-tier classifier uses the fixed ordered thresholds
75 and 40: `score ≥ 75` is the strong tier (`"fort"`), `40 ≤ score < 75` the
to-improve tier (`"améliorer"`), `score < 40` the critical tier
(`"critique"`). -/
theorem classify_domain_thresholds (s : Rat) :
    (75 ≤ s → classify_domain s = "fort") ∧
    (40 ≤ s ∧ s < 75 → classify_domain s = "améliorer") ∧
    (s < 40 → classify_domain s = "critique") := by
  unfold classify_domain STRONG_THRESHOLD IMPROVE_THRESHOLD
  refine ⟨fun h => ?_, fun ⟨h1, h2⟩ => ?_, fun h => ?_⟩
  · rw [if_pos (by linarith)]
  · rw [if_neg (by simp; linarith), if_pos (by linarith)]
  · rw [if_neg (by simp; linarith), if_neg (by simp; linarith)]

theorem classify_domain_thresholds_witness :
    classify_domain 80 = "fort" ∧ classify_domain 50 = "améliorer" ∧
    classify_domain 10 = "critique" :=
  ⟨(classify_domain_thresholds 80).1 (by norm_num),
   (classify_domain_thresholds 50).2.1 ⟨by norm_num, by norm_num⟩,
   (classify_domain_thresholds 10).2.2 (by norm_num)⟩

/-- C4: for a RATING (`"stars"`) question, `score_question` returns 0.0 on an
absent (`None`) or unparseable answer; otherwise it coerces the answer to an
integer, clamps it to [0,5] and maps it by `(v / 5) * 100`; it is monotone
non-decreasing in `clamp(v, 0, 5)` and equals `v * 20` for integers
`v ∈ [0,5]`. -/
theorem score_question_rating_spec (q : Question) (h : q.type = "stars") :
    (score_question q .none = .ok 0) ∧
    (∀ s : String, parsePyInt s = Option.none →
      score_question q (.str s) = .ok 0) ∧
    (∀ (s : String) (n : Int), parsePyInt s = some n →
      score_question q (.str s) = .ok (((max 0 (min 5 n) : Int) : Rat) / 5 * 100)) ∧
    (∀ v : Int,
      score_question q (.int v) = .ok (((max 0 (min 5 v) : Int) : Rat) / 5 * 100)) ∧
    (∀ v w : Int, max 0 (min 5 v) ≤ max 0 (min 5 w) →
      scoreVal (score_question q (.int v)) ≤ scoreVal (score_question q (.int w))) ∧
    (∀ v : Int, 0 ≤ v → v ≤ 5 → score_question q (.int v) = .ok (v * 20)) := by
  refine ⟨?_, fun s hs => ?_, fun s n hs => ?_, fun v => ?_, fun v w hvw => ?_,
    fun v h0 h5 => ?_⟩
  · rw [score_question_stars q h]; rfl
  · rw [score_question_stars q h]
    simp [scoreStars, intOfAnswer, hs]
  · rw [score_question_stars q h]
    simp [scoreStars, intOfAnswer, hs]
  · rw [score_question_stars q h]; rfl
  · rw [score_question_stars q h, score_question_stars q h]
    simp only [scoreVal, scoreStars, intOfAnswer, Except.toOption, Option.getD]
    have hc : ((max 0 (min 5 v) : Int) : Rat) ≤ ((max 0 (min 5 w) : Int) : Rat) := by
      exact_mod_cast hvw
    linarith
  · rw [score_question_stars q h]
    have hmin : min 5 v = v := min_eq_right h5
    have hmax : max 0 v = v := max_eq_right h0
    simp only [scoreStars, intOfAnswer, hmin, hmax]
    congr 1
    ring

theorem score_question_rating_spec_witness :
    (score_question ⟨"q1", "stars", "t", 1⟩ .none = .ok 0) ∧
    (score_question ⟨"q1", "stars", "t", 1⟩ (.str "abc") = .ok 0) ∧
    (score_question ⟨"q1", "stars", "t", 1⟩ (.str " 4 ")
      = .ok (((max 0 (min 5 (4 : Int)) : Int) : Rat) / 5 * 100)) ∧
    (score_question ⟨"q1", "stars", "t", 1⟩ (.int 7)
      = .ok (((max 0 (min 5 (7 : Int)) : Int) : Rat) / 5 * 100)) ∧
    (scoreVal (score_question ⟨"q1", "stars", "t", 1⟩ (.int 2))
      ≤ scoreVal (score_question ⟨"q1", "stars", "t", 1⟩ (.int 4))) ∧
    (score_question ⟨"q1", "stars", "t", 1⟩ (.int 3) = .ok (3 * 20)) := by
  obtain ⟨h1, h2, h3, h4, h5, h6⟩ :=
    score_question_rating_spec ⟨"q1", "stars", "t", 1⟩ rfl
  exact ⟨h1, h2 "abc" (by with_unfolding_all decide),
    h3 " 4 " 4 (by with_unfolding_all decide), h4 7,
    h5 2 4 (by with_unfolding_all decide), h6 3 (by norm_num) (by norm_num)⟩

/-- C5: for a BOOLEAN (`"boolean"`) question, a string answer is truthy
exactly when, trimmed and lowercased, it is one of `"oui"`, `"yes"`,
`"true"`, `"1"`; non-string values are coerced by Python truthiness; the
result is always exactly 0.0 or 100.0; a question whose kind tag is neither
`"stars"` nor `"boolean"` fails with the unknown-question-type error. -/
theorem score_question_boolean_spec (q : Question) (h : q.type = "boolean") :
    (∀ s : String, s.trim.toLower ∈ (["oui", "yes", "true", "1"] : List String) →
      score_question q (.str s) = .ok 100) ∧
    (∀ s : String, s.trim.toLower ∉ (["oui", "yes", "true", "1"] : List String) →
      score_question q (.str s) = .ok 0) ∧
    (∀ a : Answer, (∀ s, a ≠ .str s) →
      score_question q a = .ok (if pyTruthy a then 100 else 0)) ∧
    (∀ (a : Answer) (r : Rat), score_question q a = .ok r → r = 0 ∨ r = 100) ∧
    (∀ (q' : Question) (a : Answer), q'.type ≠ "stars" → q'.type ≠ "boolean" →
      score_question q' a = .error ("Type de question inconnu: " ++ q'.type)) := by
  refine ⟨fun s hs => ?_, fun s hs => ?_, fun a ha => ?_, fun a r hr => ?_,
    fun q' a h1 h2 => ?_⟩
  · rw [score_question_bool q h]
    simp only [scoreBoolean, TRUTHY_TOKENS]
    rw [if_pos (List.elem_iff.mpr hs)]
  · rw [score_question_bool q h]
    simp only [scoreBoolean, TRUTHY_TOKENS]
    rw [if_neg (fun hc => hs (List.elem_iff.mp hc))]
  · rw [score_question_bool q h]
    cases a with
    | str s => exact absurd rfl (ha s)
    | none => rfl
    | int n => rfl
    | bool b => rfl
  · rw [score_question_bool q h] at hr
    cases a with
    | str s =>
        simp only [scoreBoolean] at hr
        split at hr <;> simp_all
    | none => simp only [scoreBoolean, pyTruthy] at hr; simp_all
    | int n =>
        simp only [scoreBoolean, pyTruthy] at hr
        split at hr <;> simp_all
    | bool b =>
        simp only [scoreBoolean, pyTruthy] at hr
        cases b <;> simp_all
  · simp [score_question, h1, h2]

theorem score_question_boolean_spec_witness :
    (score_question ⟨"q2", "boolean", "t", 1⟩ (.str " Oui ") = .ok 100) ∧
    (score_question ⟨"q2", "boolean", "t", 1⟩ (.str "non") = .ok 0) ∧
    (score_question ⟨"q2", "boolean", "t", 1⟩ (.int 2)
      = .ok (if pyTruthy (.int 2) then 100 else 0)) ∧
    ((0 : Rat) = 0 ∨ (0 : Rat) = 100) ∧
    (score_question ⟨"q3", "mystery", "t", 1⟩ .none
      = .error ("Type de question inconnu: " ++ "mystery")) := by
  obtain ⟨h1, h2, h3, h4, h5⟩ :=
    score_question_boolean_spec ⟨"q2", "boolean", "t", 1⟩ rfl
  refine ⟨h1 " Oui " (by with_unfolding_all decide),
    h2 "non" (by with_unfolding_all decide), h3 (.int 2) (by intro s; simp),
    h4 .none 0 ?_, h5 ⟨"q3", "mystery", "t", 1⟩ .none (by simp) (by simp)⟩
  rw [score_question_bool _ rfl]; rfl

theorem sumScores_spec (ans : List (String × Answer)) (qs : List Question)
    (h : ∀ q ∈ qs, q.type = "stars" ∨ q.type = "boolean") :
    sumScores ans qs = .ok
      ((qs.map (fun q => scoreVal (score_question q (lookupAnswer ans q.id)) * q.weight)).sum,
       (qs.map Question.weight).sum) := by
  induction qs with
  | nil => rfl
  | cons q rest ih =>
      have hq := h q (List.mem_cons_self q rest)
      have hrest := fun p hp => h p (List.mem_cons_of_mem q hp)
      rw [sumScores, score_question_isOk q hq (lookupAnswer ans q.id)]
      rw [ih hrest]
      simp [Bind.bind, Except.bind]

/-- C3: `score_domain` is the weighted mean of `score_question` over the
domain's questions with weight `question.weight`; the answer is looked up by
question id with a missing entry read as `None`; when the total weight is 0
the result is exactly 0.0. -/
theorem score_domain_weighted_mean (d : Domain) (ans : List (String × Answer))
    (h : WellTyped d) :
    score_domain d ans = .ok
      (if (d.questions.map Question.weight).sum = 0 then 0
       else (d.questions.map
               (fun q => scoreVal (score_question q (lookupAnswer ans q.id)) * q.weight)).sum
              / (d.questions.map Question.weight).sum) := by
  rw [score_domain, sumScores_spec ans d.questions h]
  simp only [Bind.bind, Except.bind]
  split <;> rfl

theorem score_domain_weighted_mean_witness :
    score_domain ⟨"finance", "Finance", "d", [⟨"f1", "stars", "t", 1⟩, ⟨"f2", "boolean", "t", 1⟩]⟩
        [("f1", .int 4), ("f2", .bool true)]
      = .ok
        (if (([⟨"f1", "stars", "t", 1⟩, ⟨"f2", "boolean", "t", 1⟩] : List Question).map Question.weight).sum = 0 then 0
         else (([⟨"f1", "stars", "t", 1⟩, ⟨"f2", "boolean", "t", 1⟩] : List Question).map
                 (fun q => scoreVal (score_question q (lookupAnswer [("f1", .int 4), ("f2", .bool true)] q.id)) * q.weight)).sum
                / (([⟨"f1", "stars", "t", 1⟩, ⟨"f2", "boolean", "t", 1⟩] : List Question).map Question.weight).sum) :=
  score_domain_weighted_mean
    ⟨"finance", "Finance", "d", [⟨"f1", "stars", "t", 1⟩, ⟨"f2", "boolean", "t", 1⟩]⟩
    [("f1", .int 4), ("f2", .bool true)] (by with_unfolding_all decide)

theorem dinsert_of_not_mem {α : Type} (m : List (String × α)) (k : String) (v : α)
    (h : k ∉ m.map Prod.fst) : dinsert m k v = m ++ [(k, v)] := by
  induction m with
  | nil => rfl
  | cons p rest ih =>
      have h1 : p.1 ≠ k := fun he => h (by simp [← he])
      have h2 : k ∉ rest.map Prod.fst := fun hm => h (by simp [hm])
      rw [dinsert, if_neg h1, ih h2]
      simp

theorem score_domain_eq (d : Domain) (ans : List (String × Answer))
    (h : WellTyped d) :
    score_domain d ans = .ok
      (if (d.questions.map Question.weight).sum = 0 then 0
       else (d.questions.map
               (fun q => scoreVal (score_question q (lookupAnswer ans q.id)) * q.weight)).sum
              / (d.questions.map Question.weight).sum) := by
  rw [score_domain, sumScores_spec ans d.questions h]
  simp only [Bind.bind, Except.bind]
  split <;> rfl

theorem score_domain_isOk (d : Domain) (ans : List (String × Answer))
    (h : WellTyped d) :
    score_domain d ans = .ok (scoreVal (score_domain d ans)) := by
  rw [score_domain_eq d ans h]
  rfl

theorem scoreVal_question_none (q : Question)
    (h : q.type = "stars" ∨ q.type = "boolean") :
    scoreVal (score_question q Answer.none) = 0 := by
  rcases h with h | h
  · rw [score_question_stars q h]; rfl
  · rw [score_question_bool q h]; rfl

theorem score_domain_all_none (d : Domain) (ans : List (String × Answer))
    (h : WellTyped d) (hnone : ∀ qid, lookupAnswer ans qid = Answer.none) :
    score_domain d ans = .ok 0 := by
  rw [score_domain_eq d ans h]
  have hz : (d.questions.map
      (fun q => scoreVal (score_question q (lookupAnswer ans q.id)) * q.weight)).sum = 0 := by
    apply List.sum_eq_zero
    intro x hx
    obtain ⟨q, hq, hqx⟩ := List.mem_map.mp hx
    rw [hnone q.id, scoreVal_question_none q (h q hq)] at hqx
    simpa using hqx.symm
  rw [hz]
  split <;> simp

theorem scoreGlobalAux_spec (A : List (String × List (String × Answer)))
    (domains : List (String × Domain)) :
    ∀ (m : List (String × Rat)) (s : Rat) (c : Nat),
    (∀ p ∈ domains, WellTyped p.2) →
    (∀ p ∈ domains, p.1 ∉ m.map Prod.fst) →
    (domains.map Prod.fst).Nodup →
    scoreGlobalAux A domains m s c = .ok
      (m ++ domains.map (fun p => (p.1, scoreVal (score_domain p.2 (lookupAns A p.1)))),
       s + ((domains.filter (fun p => !(lookupAns A p.1).isEmpty)).map
              (fun p => scoreVal (score_domain p.2 (lookupAns A p.1)))).sum,
       c + (domains.filter (fun p => !(lookupAns A p.1).isEmpty)).length) := by
  induction domains with
  | nil => intro m s c _ _ _; simp [scoreGlobalAux]
  | cons p rest ih =>
      intro m s c hwt hdisj hnd
      obtain ⟨did, d⟩ := p
      have hw : WellTyped d := hwt (did, d) (List.mem_cons_self _ _)
      have hwr : ∀ p ∈ rest, WellTyped p.2 :=
        fun p hp => hwt p (List.mem_cons_of_mem _ hp)
      have hndr : (rest.map Prod.fst).Nodup := (List.nodup_cons.mp hnd).2
      have hdid : did ∉ rest.map Prod.fst := by
        simpa using (List.nodup_cons.mp hnd).1
      have hdm : did ∉ m.map Prod.fst := hdisj (did, d) (List.mem_cons_self _ _)
      rw [scoreGlobalAux, score_domain_isOk d _ hw]
      simp only [Bind.bind, Except.bind]
      have hins : dinsert m did (scoreVal (score_domain d (lookupAns A did)))
          = m ++ [(did, scoreVal (score_domain d (lookupAns A did)))] :=
        dinsert_of_not_mem m did _ hdm
      have hdisj' : ∀ p ∈ rest,
          p.1 ∉ (m ++ [(did, scoreVal (score_domain d (lookupAns A did)))]).map Prod.fst := by
        intro p hp
        simp only [List.map_append, List.map_cons, List.map_nil, List.mem_append,
          List.mem_cons, List.not_mem_nil]
        rintro (hm | he | hf)
        · exact hdisj p (List.mem_cons_of_mem _ hp) hm
        · exact hdid (he ▸ List.mem_map_of_mem Prod.fst hp)
        · exact hf
      by_cases he : (lookupAns A did).isEmpty
      · rw [if_pos he, hins, ih _ s c hwr hdisj' hndr]
        simp [List.filter_cons, he]
      · rw [if_neg he, hins,
          ih _ (s + scoreVal (score_domain d (lookupAns A did))) (c + 1) hwr hdisj' hndr]
        have hfc : List.filter (fun p => !(lookupAns A p.1).isEmpty) ((did, d) :: rest)
            = (did, d) :: List.filter (fun p => !(lookupAns A p.1).isEmpty) rest := by
          simp [List.filter_cons, he]
        rw [hfc]
        simp only [List.map_cons, List.sum_cons, List.length_cons]
        refine congrArg Except.ok ?_
        simp only [Prod.mk.injEq]
        refine ⟨by simp, by ring, by omega⟩

/-- C1: `score_global` records a score for every domain plus the reserved
`"__global__"` entry; a domain enters the averaging denominator exactly when
its answer sub-map is non-empty; the global entry is the unweighted mean of
the included domain scores, or 0.0 when no domain has answers; a domain whose
answer sub-map is missing or empty is still recorded, with score 0.0. -/
theorem score_global_spec (domains : List (String × Domain))
    (A : List (String × List (String × Answer)))
    (hwt : ∀ p ∈ domains, WellTyped p.2)
    (hnd : (domains.map Prod.fst).Nodup)
    (hg : "__global__" ∉ domains.map Prod.fst) :
    (score_global domains A = .ok
      (domains.map (fun p => (p.1, scoreVal (score_domain p.2 (lookupAns A p.1)))) ++
        [("__global__",
          if 0 < (domains.filter (fun p => !(lookupAns A p.1).isEmpty)).length then
            ((domains.filter (fun p => !(lookupAns A p.1).isEmpty)).map
               (fun p => scoreVal (score_domain p.2 (lookupAns A p.1)))).sum
              / ((domains.filter (fun p => !(lookupAns A p.1).isEmpty)).length : Rat)
          else 0)])) ∧
    (∀ p ∈ domains, lookupAns A p.1 = [] →
      scoreVal (score_domain p.2 (lookupAns A p.1)) = 0) := by
  constructor
  · rw [score_global, scoreGlobalAux_spec A domains [] 0 0 hwt (by simp) hnd]
    simp only [Bind.bind, Except.bind, List.nil_append, Rat.zero_add, Nat.zero_add,
      zero_add]
    refine congrArg Except.ok ?_
    rw [dinsert_of_not_mem]
    simp
    intro x hx
    exact hg (List.mem_map_of_mem Prod.fst hx)
  · intro p hp hempty
    rw [hempty, score_domain_all_none p.2 [] (hwt p hp) (fun _ => rfl)]
    rfl

theorem score_global_spec_witness :
    (score_global
        [("finance", ⟨"finance", "F", "", [⟨"f1", "boolean", "t", 1⟩]⟩),
         ("rh", ⟨"rh", "R", "", [⟨"r1", "stars", "t", 1⟩]⟩)]
        [("finance", [("f1", .bool false)])]
      = .ok [("finance", 0), ("rh", 0), ("__global__", 0)]) ∧
    ((score_global
        [("finance", ⟨"finance", "F", "", [⟨"f1", "boolean", "t", 1⟩]⟩),
         ("rh", ⟨"rh", "R", "", [⟨"r1", "stars", "t", 1⟩]⟩)]
        [("finance", [("f1", .bool false)])] = .ok
      (([("finance", ⟨"finance", "F", "", [⟨"f1", "boolean", "t", 1⟩]⟩),
         ("rh", ⟨"rh", "R", "", [⟨"r1", "stars", "t", 1⟩]⟩)] : List (String × Domain)).map
          (fun p => (p.1, scoreVal (score_domain p.2
            (lookupAns [("finance", [("f1", .bool false)])] p.1)))) ++
        [("__global__",
          if 0 < (([("finance", ⟨"finance", "F", "", [⟨"f1", "boolean", "t", 1⟩]⟩),
                    ("rh", ⟨"rh", "R", "", [⟨"r1", "stars", "t", 1⟩]⟩)] : List (String × Domain)).filter
                     (fun p => !(lookupAns [("finance", [("f1", .bool false)])] p.1).isEmpty)).length then
            ((([("finance", ⟨"finance", "F", "", [⟨"f1", "boolean", "t", 1⟩]⟩),
                ("rh", ⟨"rh", "R", "", [⟨"r1", "stars", "t", 1⟩]⟩)] : List (String × Domain)).filter
                  (fun p => !(lookupAns [("finance", [("f1", .bool false)])] p.1).isEmpty)).map
               (fun p => scoreVal (score_domain p.2
                 (lookupAns [("finance", [("f1", .bool false)])] p.1)))).sum
              / ((([("finance", ⟨"finance", "F", "", [⟨"f1", "boolean", "t", 1⟩]⟩),
                    ("rh", ⟨"rh", "R", "", [⟨"r1", "stars", "t", 1⟩]⟩)] : List (String × Domain)).filter
                     (fun p => !(lookupAns [("finance", [("f1", .bool false)])] p.1).isEmpty)).length : Rat)
          else 0)])) ∧
    (∀ p ∈ ([("finance", ⟨"finance", "F", "", [⟨"f1", "boolean", "t", 1⟩]⟩),
             ("rh", ⟨"rh", "R", "", [⟨"r1", "stars", "t", 1⟩]⟩)] : List (String × Domain)),
      lookupAns [("finance", [("f1", .bool false)])] p.1 = [] →
        scoreVal (score_domain p.2 (lookupAns [("finance", [("f1", .bool false)])] p.1)) = 0)) :=
  ⟨by with_unfolding_all decide,
   score_global_spec
     [("finance", ⟨"finance", "F", "", [⟨"f1", "boolean", "t", 1⟩]⟩),
      ("rh", ⟨"rh", "R", "", [⟨"r1", "stars", "t", 1⟩]⟩)]
     [("finance", [("f1", .bool false)])]
     (by with_unfolding_all decide) (by with_unfolding_all decide)
     (by with_unfolding_all decide)⟩

theorem mem_insertAsc (p x : String × Rat) (l : List (String × Rat)) :
    x ∈ insertAsc p l ↔ x = p ∨ x ∈ l := by
  induction l with
  | nil => simp [insertAsc]
  | cons q qs ih =>
      rw [insertAsc]
      split
      · simp [ih]
        tauto
      · simp

theorem pairwise_insertAsc (p : String × Rat) (l : List (String × Rat))
    (h : l.Pairwise (fun a b => a.2 ≤ b.2)) :
    (insertAsc p l).Pairwise (fun a b => a.2 ≤ b.2) := by
  induction l with
  | nil => simp [insertAsc]
  | cons q qs ih =>
      obtain ⟨hq, hqs⟩ := List.pairwise_cons.mp h
      rw [insertAsc]
      split
      · rename_i hle
        refine List.pairwise_cons.mpr ⟨?_, ih hqs⟩
        intro y hy
        rcases (mem_insertAsc p y qs).mp hy with rfl | hy'
        · exact hle
        · exact hq y hy'
      · rename_i hgt
        refine List.pairwise_cons.mpr ⟨?_, h⟩
        intro y hy
        have hpq : p.2 ≤ q.2 := le_of_not_le hgt
        rcases List.mem_cons.mp hy with rfl | hy'
        · exact hpq
        · exact le_trans hpq (hq y hy')

theorem mem_foldl_insertAsc (l : List (String × Rat)) :
    ∀ (acc : List (String × Rat)) (x : String × Rat),
    x ∈ l.foldl (fun a p => insertAsc p a) acc ↔ x ∈ acc ∨ x ∈ l := by
  induction l with
  | nil => simp
  | cons q qs ih =>
      intro acc x
      rw [List.foldl_cons, ih (insertAsc q acc) x, mem_insertAsc]
      simp
      tauto

theorem mem_sortAsc (l : List (String × Rat)) (x : String × Rat) :
    x ∈ sortAsc l ↔ x ∈ l := by
  rw [sortAsc, mem_foldl_insertAsc]
  simp

theorem pairwise_sortAsc (l : List (String × Rat)) :
    (sortAsc l).Pairwise (fun a b => a.2 ≤ b.2) := by
  rw [sortAsc]
  have : ∀ (acc : List (String × Rat)), acc.Pairwise (fun a b => a.2 ≤ b.2) →
      (l.foldl (fun a p => insertAsc p a) acc).Pairwise (fun a b => a.2 ≤ b.2) := by
    induction l with
    | nil => intro acc h; simpa using h
    | cons q qs ih =>
        intro acc h
        exact ih (insertAsc q acc) (pairwise_insertAsc q acc h)
  exact this [] (by simp)

theorem mem_insertDesc (p x : String × Rat) (l : List (String × Rat)) :
    x ∈ insertDesc p l ↔ x = p ∨ x ∈ l := by
  induction l with
  | nil => simp [insertDesc]
  | cons q qs ih =>
      rw [insertDesc]
      split
      · simp [ih]
        tauto
      · simp

theorem pairwise_insertDesc (p : String × Rat) (l : List (String × Rat))
    (h : l.Pairwise (fun a b => b.2 ≤ a.2)) :
    (insertDesc p l).Pairwise (fun a b => b.2 ≤ a.2) := by
  induction l with
  | nil => simp [insertDesc]
  | cons q qs ih =>
      obtain ⟨hq, hqs⟩ := List.pairwise_cons.mp h
      rw [insertDesc]
      split
      · rename_i hle
        refine List.pairwise_cons.mpr ⟨?_, ih hqs⟩
        intro y hy
        rcases (mem_insertDesc p y qs).mp hy with rfl | hy'
        · exact hle
        · exact hq y hy'
      · rename_i hgt
        refine List.pairwise_cons.mpr ⟨?_, h⟩
        intro y hy
        have hpq : q.2 ≤ p.2 := le_of_not_le hgt
        rcases List.mem_cons.mp hy with rfl | hy'
        · exact hpq
        · exact le_trans (hq y hy') hpq

theorem mem_foldl_insertDesc (l : List (String × Rat)) :
    ∀ (acc : List (String × Rat)) (x : String × Rat),
    x ∈ l.foldl (fun a p => insertDesc p a) acc ↔ x ∈ acc ∨ x ∈ l := by
  induction l with
  | nil => simp
  | cons q qs ih =>
      intro acc x
      rw [List.foldl_cons, ih (insertDesc q acc) x, mem_insertDesc]
      simp
      tauto

theorem mem_sortDesc (l : List (String × Rat)) (x : String × Rat) :
    x ∈ sortDesc l ↔ x ∈ l := by
  rw [sortDesc, mem_foldl_insertDesc]
  simp

theorem pairwise_sortDesc (l : List (String × Rat)) :
    (sortDesc l).Pairwise (fun a b => b.2 ≤ a.2) := by
  rw [sortDesc]
  have : ∀ (acc : List (String × Rat)), acc.Pairwise (fun a b => b.2 ≤ a.2) →
      (l.foldl (fun a p => insertDesc p a) acc).Pairwise (fun a b => b.2 ≤ a.2) := by
    induction l with
    | nil => intro acc h; simpa using h
    | cons q qs ih =>
        intro acc h
        exact ih (insertDesc q acc) (pairwise_insertDesc q acc h)
  exact this [] (by simp)

theorem selectScores_spec (A : List (String × List (String × Answer)))
    (keep : Rat → Bool) (domains : List (String × Domain)) :
    ∀ acc : List (String × Rat),
    (∀ p ∈ domains, WellTyped p.2) →
    (∀ p ∈ domains, p.1 ∉ acc.map Prod.fst) →
    (domains.map Prod.fst).Nodup →
    selectScores A keep acc domains = .ok
      (acc ++ (domains.filter (fun p => !(lookupAns A p.1).isEmpty
                 && keep (scoreVal (score_domain p.2 (lookupAns A p.1))))).map
          (fun p => (p.1, scoreVal (score_domain p.2 (lookupAns A p.1))))) := by
  induction domains with
  | nil => intro acc _ _ _; simp [selectScores]
  | cons p rest ih =>
      intro acc hwt hdisj hnd
      obtain ⟨did, d⟩ := p
      have hw : WellTyped d := hwt (did, d) (List.mem_cons_self _ _)
      have hwr : ∀ p ∈ rest, WellTyped p.2 :=
        fun p hp => hwt p (List.mem_cons_of_mem _ hp)
      have hndr : (rest.map Prod.fst).Nodup := (List.nodup_cons.mp hnd).2
      have hdid : did ∉ rest.map Prod.fst := by
        simpa using (List.nodup_cons.mp hnd).1
      have hdm : did ∉ acc.map Prod.fst := hdisj (did, d) (List.mem_cons_self _ _)
      rw [selectScores]
      by_cases he : (lookupAns A did).isEmpty
      · rw [if_pos he, ih acc hwr
          (fun p hp => hdisj p (List.mem_cons_of_mem _ hp)) hndr]
        simp [List.filter_cons, he]
      · rw [if_neg he, score_domain_isOk d _ hw]
        simp only [Bind.bind, Except.bind]
        by_cases hk : keep (scoreVal (score_domain d (lookupAns A did)))
        · rw [if_pos hk,
            dinsert_of_not_mem acc did _ hdm]
          have hdisj' : ∀ p ∈ rest,
              p.1 ∉ (acc ++ [(did, scoreVal (score_domain d (lookupAns A did)))]).map Prod.fst := by
            intro p hp
            simp only [List.map_append, List.map_cons, List.map_nil, List.mem_append,
              List.mem_cons, List.not_mem_nil]
            rintro (hm | hx | hf)
            · exact hdisj p (List.mem_cons_of_mem _ hp) hm
            · exact hdid (hx ▸ List.mem_map_of_mem Prod.fst hp)
            · exact hf
          rw [ih _ hwr hdisj' hndr]
          have hfc : List.filter (fun p => !(lookupAns A p.1).isEmpty
                && keep (scoreVal (score_domain p.2 (lookupAns A p.1)))) ((did, d) :: rest)
              = (did, d) :: List.filter (fun p => !(lookupAns A p.1).isEmpty
                  && keep (scoreVal (score_domain p.2 (lookupAns A p.1)))) rest := by
            simp [List.filter_cons, he, hk]
          rw [hfc]
          simp
        · rw [if_neg hk, ih acc hwr
            (fun p hp => hdisj p (List.mem_cons_of_mem _ hp)) hndr]
          have hfc : List.filter (fun p => !(lookupAns A p.1).isEmpty
                && keep (scoreVal (score_domain p.2 (lookupAns A p.1)))) ((did, d) :: rest)
              = List.filter (fun p => !(lookupAns A p.1).isEmpty
                  && keep (scoreVal (score_domain p.2 (lookupAns A p.1)))) rest := by
            simp [List.filter_cons, he, hk]
          rw [hfc]

theorem mem_selected_iff (A : List (String × List (String × Answer)))
    (domains : List (String × Domain)) (keepP : Rat → Prop) [DecidablePred keepP]
    (hwt : ∀ p ∈ domains, WellTyped p.2) (did : String) (s : Rat) :
    ((did, s) ∈ (domains.filter (fun p => !(lookupAns A p.1).isEmpty
        && decide (keepP (scoreVal (score_domain p.2 (lookupAns A p.1)))))).map
        (fun p => (p.1, scoreVal (score_domain p.2 (lookupAns A p.1))))) ↔
    (∃ d, (did, d) ∈ domains ∧ lookupAns A did ≠ [] ∧
      score_domain d (lookupAns A did) = .ok s ∧ keepP s) := by
  constructor
  · intro h
    obtain ⟨p, hpf, hpe⟩ := List.mem_map.mp h
    obtain ⟨hpd, hpred⟩ := List.mem_filter.mp hpf
    rw [Bool.and_eq_true] at hpred
    obtain ⟨h1, h2⟩ := hpred
    have he1 : p.1 = did := congrArg Prod.fst hpe
    have he2 : scoreVal (score_domain p.2 (lookupAns A p.1)) = s := congrArg Prod.snd hpe
    refine ⟨p.2, ?_, ?_, ?_, ?_⟩
    · rw [← he1]; exact hpd
    · rw [← he1]
      intro hemp
      rw [hemp] at h1
      simp at h1
    · rw [← he1, ← he2]
      exact score_domain_isOk p.2 _ (hwt p hpd)
    · rw [← he2]
      exact of_decide_eq_true h2
  · rintro ⟨d, hd, hne, hok, hk⟩
    have hval : scoreVal (score_domain d (lookupAns A did)) = s := by
      rw [hok]; rfl
    apply List.mem_map.mpr
    refine ⟨(did, d), List.mem_filter.mpr ⟨hd, ?_⟩, ?_⟩
    · rw [Bool.and_eq_true]
      constructor
      · simpa [List.isEmpty_iff] using hne
      · exact decide_eq_true (by rw [hval]; exact hk)
    · simp [hval]

/-- C6: `extract_weak_points` contains exactly the domains with a non-empty
answer sub-map whose score classifies other than `"fort"` (the strong tier),
sorted ascending by score; `extract_strong_points` contains exactly those
classifying `"fort"`, sorted descending; domains with no answers appear in
neither list. -/
theorem extract_points_spec (domains : List (String × Domain))
    (A : List (String × List (String × Answer)))
    (hwt : ∀ p ∈ domains, WellTyped p.2)
    (hnd : (domains.map Prod.fst).Nodup) :
    ∃ wk sg,
      extract_weak_points domains A = .ok wk ∧
      extract_strong_points domains A = .ok sg ∧
      (∀ did s, (did, s) ∈ wk ↔ ∃ d, (did, d) ∈ domains ∧ lookupAns A did ≠ [] ∧
          score_domain d (lookupAns A did) = .ok s ∧ classify_domain s ≠ "fort") ∧
      List.Pairwise (fun a b => a.2 ≤ b.2) wk ∧
      (∀ did s, (did, s) ∈ sg ↔ ∃ d, (did, d) ∈ domains ∧ lookupAns A did ≠ [] ∧
          score_domain d (lookupAns A did) = .ok s ∧ classify_domain s = "fort") ∧
      List.Pairwise (fun a b => b.2 ≤ a.2) sg ∧
      (∀ did, lookupAns A did = [] → ∀ s, (did, s) ∉ wk ∧ (did, s) ∉ sg) := by
  have hwk : extract_weak_points domains A = .ok (sortAsc
      ((domains.filter (fun p => !(lookupAns A p.1).isEmpty
          && decide (classify_domain (scoreVal (score_domain p.2 (lookupAns A p.1))) ≠ "fort"))).map
        (fun p => (p.1, scoreVal (score_domain p.2 (lookupAns A p.1)))))) := by
    rw [extract_weak_points, selectScores_spec A _ domains [] hwt (by simp) hnd]
    simp only [Bind.bind, Except.bind, List.nil_append]
  have hsg : extract_strong_points domains A = .ok (sortDesc
      ((domains.filter (fun p => !(lookupAns A p.1).isEmpty
          && decide (classify_domain (scoreVal (score_domain p.2 (lookupAns A p.1))) = "fort"))).map
        (fun p => (p.1, scoreVal (score_domain p.2 (lookupAns A p.1)))))) := by
    rw [extract_strong_points, selectScores_spec A _ domains [] hwt (by simp) hnd]
    simp only [Bind.bind, Except.bind, List.nil_append]
  refine ⟨_, _, hwk, hsg, ?_, pairwise_sortAsc _, ?_, pairwise_sortDesc _, ?_⟩
  · intro did s
    rw [mem_sortAsc]
    exact mem_selected_iff A domains (fun r => classify_domain r ≠ "fort") hwt did s
  · intro did s
    rw [mem_sortDesc]
    exact mem_selected_iff A domains (fun r => classify_domain r = "fort") hwt did s
  · intro did hemp s
    constructor
    · rw [mem_sortAsc, mem_selected_iff A domains (fun r => classify_domain r ≠ "fort") hwt did s]
      rintro ⟨d, _, hne, _, _⟩
      exact hne hemp
    · rw [mem_sortDesc, mem_selected_iff A domains (fun r => classify_domain r = "fort") hwt did s]
      rintro ⟨d, _, hne, _, _⟩
      exact hne hemp

/-- Concrete demo catalogue (shaped like the spec's end-to-end scenario):
one critical, one to-improve, one strong and one unanswered domain. -/
def DEMO_DOMAINS : List (String × Domain) :=
  [("crit", ⟨"crit", "C", "", [⟨"c1", "stars", "t", 1⟩, ⟨"c2", "stars", "t", 1⟩]⟩),
   ("impr", ⟨"impr", "I", "", [⟨"i1", "stars", "t", 1⟩, ⟨"i2", "stars", "t", 1⟩]⟩),
   ("strong", ⟨"strong", "S", "", [⟨"s1", "stars", "t", 1⟩, ⟨"s2", "boolean", "t", 1⟩]⟩),
   ("noans", ⟨"noans", "N", "", [⟨"n1", "stars", "t", 1⟩]⟩)]

/-- Concrete demo answers: scores 30, 50 and 90; `"noans"` has no entry. -/
def DEMO_ANSWERS : List (String × List (String × Answer)) :=
  [("crit", [("c1", .int 3), ("c2", .int 0)]),
   ("impr", [("i1", .int 4), ("i2", .int 1)]),
   ("strong", [("s1", .int 4), ("s2", .bool true)])]

theorem extract_points_spec_witness :
    (extract_weak_points DEMO_DOMAINS DEMO_ANSWERS = .ok [("crit", 30), ("impr", 50)]) ∧
    (extract_strong_points DEMO_DOMAINS DEMO_ANSWERS = .ok [("strong", 90)]) ∧
    (∃ wk sg,
      extract_weak_points DEMO_DOMAINS DEMO_ANSWERS = .ok wk ∧
      extract_strong_points DEMO_DOMAINS DEMO_ANSWERS = .ok sg ∧
      (∀ did s, (did, s) ∈ wk ↔ ∃ d, (did, d) ∈ DEMO_DOMAINS ∧
          lookupAns DEMO_ANSWERS did ≠ [] ∧
          score_domain d (lookupAns DEMO_ANSWERS did) = .ok s ∧
          classify_domain s ≠ "fort") ∧
      List.Pairwise (fun a b => a.2 ≤ b.2) wk ∧
      (∀ did s, (did, s) ∈ sg ↔ ∃ d, (did, d) ∈ DEMO_DOMAINS ∧
          lookupAns DEMO_ANSWERS did ≠ [] ∧
          score_domain d (lookupAns DEMO_ANSWERS did) = .ok s ∧
          classify_domain s = "fort") ∧
      List.Pairwise (fun a b => b.2 ≤ a.2) sg ∧
      (∀ did, lookupAns DEMO_ANSWERS did = [] → ∀ s, (did, s) ∉ wk ∧ (did, s) ∉ sg)) :=
  ⟨by with_unfolding_all decide, by with_unfolding_all decide,
   extract_points_spec DEMO_DOMAINS DEMO_ANSWERS
     (by with_unfolding_all decide) (by with_unfolding_all decide)⟩

theorem mem_dinsert {α : Type} (m : List (String × α)) (k : String) (v : α)
    (x : String × α) (h : x ∈ dinsert m k v) : x = (k, v) ∨ x ∈ m := by
  induction m with
  | nil => simpa [dinsert] using h
  | cons p rest ih =>
      rw [dinsert] at h
      split at h
      · rcases List.mem_cons.mp h with rfl | hx
        · exact Or.inl rfl
        · exact Or.inr (List.mem_cons_of_mem _ hx)
      · rcases List.mem_cons.mp h with rfl | hx
        · exact Or.inr (List.mem_cons_self _ _)
        · rcases ih hx with hl | hr
          · exact Or.inl hl
          · exact Or.inr (List.mem_cons_of_mem _ hr)

theorem dinsert_ne_nil {α : Type} (m : List (String × α)) (k : String) (v : α) :
    dinsert m k v ≠ [] := by
  cases m with
  | nil => simp [dinsert]
  | cons p rest =>
      rw [dinsert]
      split <;> simp

theorem lookup_of_mem_nodup {α : Type} (l : List (String × α)) (k : String) (v : α)
    (hnd : (l.map Prod.fst).Nodup) (h : (k, v) ∈ l) : l.lookup k = some v := by
  induction l with
  | nil => simp at h
  | cons p rest ih =>
      rw [List.map_cons] at hnd
      obtain ⟨hp, hndr⟩ := List.nodup_cons.mp hnd
      rcases List.mem_cons.mp h with rfl | hx
      · simp [List.lookup]
      · have hk : k ≠ p.1 := by
          intro he
          exact hp (he ▸ List.mem_map_of_mem Prod.fst hx)
        simp [List.lookup, beq_eq_false_iff_ne.mpr hk]
        exact ih hndr hx

theorem lookup_append_left {α : Type} (l1 l2 : List (String × α)) (k : String)
    (v : α) (h : l1.lookup k = some v) : (l1 ++ l2).lookup k = some v := by
  induction l1 with
  | nil => simp [List.lookup] at h
  | cons p rest ih =>
      rw [List.cons_append]
      rw [List.lookup] at h ⊢
      split at h
      · rename_i hb
        simpa [hb] using h
      · rename_i hb
        simpa [hb] using ih h

theorem foldl_dinsert_map {α : Type} (f : String × Domain → α)
    (domains : List (String × Domain)) :
    ∀ acc : List (String × α),
    (∀ p ∈ domains, p.1 ∉ acc.map Prod.fst) →
    (domains.map Prod.fst).Nodup →
    domains.foldl (fun r p => dinsert r p.1 (f p)) acc
      = acc ++ domains.map (fun p => (p.1, f p)) := by
  induction domains with
  | nil => intro acc _ _; simp
  | cons p rest ih =>
      intro acc hdisj hnd
      have hdm : p.1 ∉ acc.map Prod.fst := hdisj p (List.mem_cons_self _ _)
      rw [List.map_cons] at hnd
      have hndr : (rest.map Prod.fst).Nodup := (List.nodup_cons.mp hnd).2
      have hp1 : p.1 ∉ rest.map Prod.fst := (List.nodup_cons.mp hnd).1
      rw [List.foldl_cons, dinsert_of_not_mem acc p.1 (f p) hdm]
      rw [ih (acc ++ [(p.1, f p)]) ?_ hndr]
      · simp
      · intro q hq
        simp only [List.map_append, List.map_cons, List.map_nil, List.mem_append,
          List.mem_cons, List.not_mem_nil]
        rintro (hm | hx | hf)
        · exact hdisj q (List.mem_cons_of_mem _ hq) hm
        · exact hp1 (hx ▸ List.mem_map_of_mem Prod.fst hq)
        · exact hf

theorem generate_empty_answers_eq (domains : List (String × Domain))
    (hnd : (domains.map Prod.fst).Nodup) :
    generate_empty_answers domains
      = domains.map (fun p => (p.1, emptyAnswersForDomain p.2)) := by
  rw [generate_empty_answers,
    foldl_dinsert_map (fun p => emptyAnswersForDomain p.2) domains [] (by simp) hnd]
  simp

theorem emptyAnswers_values (d : Domain) :
    ∀ x ∈ emptyAnswersForDomain d, x.2 = Answer.none := by
  rw [emptyAnswersForDomain]
  have : ∀ (qs : List Question) (acc : List (String × Answer)),
      (∀ x ∈ acc, x.2 = Answer.none) →
      ∀ x ∈ qs.foldl (fun m q => dinsert m q.id Answer.none) acc, x.2 = Answer.none := by
    intro qs
    induction qs with
    | nil => intro acc h; simpa using h
    | cons q rest ih =>
        intro acc h x hx
        refine ih (dinsert acc q.id Answer.none) ?_ x hx
        intro y hy
        rcases mem_dinsert acc q.id Answer.none y hy with rfl | hm
        · rfl
        · exact h y hm
  exact this d.questions [] (by simp)

theorem emptyAnswers_ne_nil (d : Domain) (h : d.questions ≠ []) :
    emptyAnswersForDomain d ≠ [] := by
  rw [emptyAnswersForDomain]
  have hne : ∀ (qs : List Question) (acc : List (String × Answer)), acc ≠ [] →
      qs.foldl (fun m q => dinsert m q.id Answer.none) acc ≠ [] := by
    intro qs
    induction qs with
    | nil => intro acc ha; simpa using ha
    | cons q rest ih =>
        intro acc _
        exact ih (dinsert acc q.id Answer.none) (dinsert_ne_nil _ _ _)
  cases hq : d.questions with
  | nil => exact absurd hq h
  | cons q rest =>
      rw [List.foldl_cons]
      exact hne rest (dinsert [] q.id Answer.none) (dinsert_ne_nil _ _ _)

theorem lookupAnswer_all_none (ans : List (String × Answer))
    (h : ∀ x ∈ ans, x.2 = Answer.none) (qid : String) :
    lookupAnswer ans qid = Answer.none := by
  induction ans with
  | nil => rfl
  | cons p rest ih =>
      rw [lookupAnswer, List.lookup]
      split
      · exact h p (List.mem_cons_self _ _)
      · exact ih (fun x hx => h x (List.mem_cons_of_mem _ hx))

/-- C10: a domain whose answer sub-map has question-id keys but only null
values — e.g. the output of `generate_empty_answers` — counts as answered
throughout the pipeline: its sub-map is non-empty, it scores 0.0, it enters
the `score_global` averaging count, its per-domain entry is 0.0, and it shows
up in `extract_weak_points` classified `"critique"` at 0.0. -/
theorem empty_answer_keys_count_as_nonempty (domains : List (String × Domain))
    (did : String) (d : Domain)
    (hwt : ∀ p ∈ domains, WellTyped p.2)
    (hnd : (domains.map Prod.fst).Nodup)
    (hg : "__global__" ∉ domains.map Prod.fst)
    (hmem : (did, d) ∈ domains)
    (hq : d.questions ≠ []) :
    lookupAns (generate_empty_answers domains) did = emptyAnswersForDomain d ∧
    lookupAns (generate_empty_answers domains) did ≠ [] ∧
    score_domain d (lookupAns (generate_empty_answers domains) did) = .ok 0 ∧
    classify_domain 0 = "critique" ∧
    (∃ wk, extract_weak_points domains (generate_empty_answers domains) = .ok wk ∧
      (did, (0 : Rat)) ∈ wk) ∧
    (∃ m, score_global domains (generate_empty_answers domains) = .ok m ∧
      m.lookup did = some 0) ∧
    (∃ t, scoreGlobalAux (generate_empty_answers domains) domains [] 0 0 = .ok t ∧
      1 ≤ t.2.2) := by
  have hA : generate_empty_answers domains
      = domains.map (fun p => (p.1, emptyAnswersForDomain p.2)) :=
    generate_empty_answers_eq domains hnd
  have hkeys : ((domains.map (fun p => (p.1, emptyAnswersForDomain p.2))).map Prod.fst).Nodup := by
    simpa [List.map_map, Function.comp] using hnd
  have hlook : lookupAns (generate_empty_answers domains) did = emptyAnswersForDomain d := by
    rw [lookupAns, hA,
      lookup_of_mem_nodup _ did (emptyAnswersForDomain d) hkeys
        (by exact List.mem_map_of_mem (fun p => (p.1, emptyAnswersForDomain p.2)) hmem)]
    rfl
  have hne : lookupAns (generate_empty_answers domains) did ≠ [] := by
    rw [hlook]
    exact emptyAnswers_ne_nil d hq
  have hwd : WellTyped d := hwt (did, d) hmem
  have hok : score_domain d (lookupAns (generate_empty_answers domains) did) = .ok 0 := by
    rw [hlook]
    exact score_domain_all_none d _ hwd
      (lookupAnswer_all_none _ (emptyAnswers_values d))
  have hcl : classify_domain 0 = "critique" := by with_unfolding_all decide
  refine ⟨hlook, hne, hok, hcl, ?_, ?_, ?_⟩
  · have hwk : extract_weak_points domains (generate_empty_answers domains) = .ok (sortAsc
        ((domains.filter (fun p => !(lookupAns (generate_empty_answers domains) p.1).isEmpty
            && decide (classify_domain (scoreVal (score_domain p.2
                 (lookupAns (generate_empty_answers domains) p.1))) ≠ "fort"))).map
          (fun p => (p.1, scoreVal (score_domain p.2
            (lookupAns (generate_empty_answers domains) p.1)))))) := by
      rw [extract_weak_points,
        selectScores_spec (generate_empty_answers domains) _ domains [] hwt (by simp) hnd]
      simp only [Bind.bind, Except.bind, List.nil_append]
    refine ⟨_, hwk, ?_⟩
    rw [mem_sortAsc]
    exact (mem_selected_iff (generate_empty_answers domains) domains
        (fun r => classify_domain r ≠ "fort") hwt did 0).mpr
      ⟨d, hmem, hne, hok, by rw [hcl]; simp⟩
  · have hsg : score_global domains (generate_empty_answers domains) = .ok
        ((domains.map (fun p => (p.1, scoreVal (score_domain p.2
            (lookupAns (generate_empty_answers domains) p.1))))) ++
          [("__global__",
            if 0 < (domains.filter (fun p =>
                !(lookupAns (generate_empty_answers domains) p.1).isEmpty)).length then
              ((domains.filter (fun p =>
                  !(lookupAns (generate_empty_answers domains) p.1).isEmpty)).map
                 (fun p => scoreVal (score_domain p.2
                   (lookupAns (generate_empty_answers domains) p.1)))).sum
                / ((domains.filter (fun p =>
                    !(lookupAns (generate_empty_answers domains) p.1).isEmpty)).length : Rat)
            else 0)]) := by
      rw [score_global,
        scoreGlobalAux_spec (generate_empty_answers domains) domains [] 0 0 hwt (by simp) hnd]
      simp only [Bind.bind, Except.bind, List.nil_append, Rat.zero_add, Nat.zero_add,
        zero_add]
      refine congrArg Except.ok ?_
      rw [dinsert_of_not_mem]
      simp
      intro x hx
      exact hg (List.mem_map_of_mem Prod.fst hx)
    refine ⟨_, hsg, ?_⟩
    have hlm : (domains.map (fun p => (p.1, scoreVal (score_domain p.2
          (lookupAns (generate_empty_answers domains) p.1))))).lookup did = some 0 := by
      have hmm := List.mem_map_of_mem
        (fun p => (p.1, scoreVal (score_domain p.2
          (lookupAns (generate_empty_answers domains) p.1)))) hmem
      have hval : scoreVal (score_domain d (lookupAns (generate_empty_answers domains) did)) = 0 := by
        rw [hok]; rfl
      rw [← hval]
      refine lookup_of_mem_nodup _ did _ ?_ hmm
      simpa [List.map_map, Function.comp] using hnd
    exact lookup_append_left _ _ did 0 hlm
  · refine ⟨_, scoreGlobalAux_spec (generate_empty_answers domains) domains [] 0 0
      hwt (by simp) hnd, ?_⟩
    have hfm : (did, d) ∈ domains.filter
        (fun p => !(lookupAns (generate_empty_answers domains) p.1).isEmpty) := by
      refine List.mem_filter.mpr ⟨hmem, ?_⟩
      simpa [List.isEmpty_iff] using hne
    have := List.length_pos_of_mem hfm
    simpa using this

theorem empty_answer_keys_count_as_nonempty_witness :
    (extract_weak_points DEMO_DOMAINS (generate_empty_answers DEMO_DOMAINS)
      = .ok [("crit", 0), ("impr", 0), ("strong", 0), ("noans", 0)]) ∧
    (lookupAns (generate_empty_answers DEMO_DOMAINS) "crit"
      = emptyAnswersForDomain ⟨"crit", "C", "", [⟨"c1", "stars", "t", 1⟩, ⟨"c2", "stars", "t", 1⟩]⟩ ∧
    lookupAns (generate_empty_answers DEMO_DOMAINS) "crit" ≠ [] ∧
    score_domain ⟨"crit", "C", "", [⟨"c1", "stars", "t", 1⟩, ⟨"c2", "stars", "t", 1⟩]⟩
      (lookupAns (generate_empty_answers DEMO_DOMAINS) "crit") = .ok 0 ∧
    classify_domain 0 = "critique" ∧
    (∃ wk, extract_weak_points DEMO_DOMAINS (generate_empty_answers DEMO_DOMAINS) = .ok wk ∧
      ("crit", (0 : Rat)) ∈ wk) ∧
    (∃ m, score_global DEMO_DOMAINS (generate_empty_answers DEMO_DOMAINS) = .ok m ∧
      m.lookup "crit" = some 0) ∧
    (∃ t, scoreGlobalAux (generate_empty_answers DEMO_DOMAINS) DEMO_DOMAINS [] 0 0 = .ok t ∧
      1 ≤ t.2.2)) :=
  ⟨by with_unfolding_all decide,
   empty_answer_keys_count_as_nonempty DEMO_DOMAINS "crit"
     ⟨"crit", "C", "", [⟨"c1", "stars", "t", 1⟩, ⟨"c2", "stars", "t", 1⟩]⟩
     (by with_unfolding_all decide) (by with_unfolding_all decide)
     (by with_unfolding_all decide) (by with_unfolding_all decide)
     (by with_unfolding_all decide)⟩

theorem readD_append (st : St) (t : List Domain) (a : Nat) (h : a < st.heap.length) :
    readD ⟨st.heap ++ t⟩ a = readD st a := by
  rw [readD, readD]
  exact List.getD_append _ _ _ _ h

theorem readD_append_self (st : St) (d : Domain) :
    readD ⟨st.heap ++ [d]⟩ st.heap.length = d := by
  rw [readD]
  simp [List.getD_eq_getElem?_getD, List.getElem?_append_right (le_refl st.heap.length)]

theorem readD_writeD_self (st : St) (a : Nat) (d : Domain) (h : a < st.heap.length) :
    readD (writeD st a d) a = d := by
  rw [readD, writeD]
  simp [List.getD_eq_getElem?_getD, List.getElem?_set_self, h]

theorem readD_writeD_ne (st : St) (a b : Nat) (d : Domain) (h : a ≠ b) :
    readD (writeD st a d) b = readD st b := by
  rw [readD, readD, writeD]
  simp [List.getD_eq_getElem?_getD, List.getElem?_set_ne h]

theorem writeD_length (st : St) (a : Nat) (d : Domain) :
    (writeD st a d).heap.length = st.heap.length := by
  rw [writeD]
  simp

theorem copyAll_cons (st : St) (k : String) (a : Nat) (rest : List (String × Nat)) :
    copyAll st ((k, a) :: rest)
      = ((copyAll ⟨st.heap ++ [readD st a]⟩ rest).1,
         (k, st.heap.length) :: (copyAll ⟨st.heap ++ [readD st a]⟩ rest).2) := rfl

theorem copyAll_spec (refs : List (String × Nat)) :
    ∀ st : St, (∀ p ∈ refs, p.2 < st.heap.length) →
    (copyAll st refs).1.heap = st.heap ++ refs.map (fun p => readD st p.2) ∧
    (copyAll st refs).2.map Prod.fst = refs.map Prod.fst ∧
    (copyAll st refs).2.map Prod.snd = List.range' st.heap.length refs.length ∧
    resolve (copyAll st refs).1 (copyAll st refs).2 = resolve st refs := by
  induction refs with
  | nil => intro st _; simp [copyAll, resolve]
  | cons p rest ih =>
      intro st h
      obtain ⟨k, a⟩ := p
      have ha : a < st.heap.length := h (k, a) (List.mem_cons_self _ _)
      have hrest : ∀ q ∈ rest, q.2 < st.heap.length :=
        fun q hq => h q (List.mem_cons_of_mem _ hq)
      have hrest1 : ∀ q ∈ rest, q.2 < (⟨st.heap ++ [readD st a]⟩ : St).heap.length := by
        intro q hq
        have := hrest q hq
        simp only [List.length_append, List.length_cons, List.length_nil]
        omega
      obtain ⟨ih1, ih2, ih3, ih4⟩ := ih ⟨st.heap ++ [readD st a]⟩ hrest1
      have hmapr : rest.map (fun q => readD (⟨st.heap ++ [readD st a]⟩ : St) q.2)
          = rest.map (fun q => readD st q.2) :=
        List.map_eq_map_iff.mpr (fun q hq => readD_append st _ q.2 (hrest q hq))
      rw [copyAll_cons]
      refine ⟨?_, ?_, ?_, ?_⟩
      · rw [ih1, hmapr]
        simp
      · simpa using ih2
      · simp only [List.map_cons, ih3, List.length_cons]
        rw [List.range'_succ]
        simp
      · have hres : resolve (copyAll (⟨st.heap ++ [readD st a]⟩ : St) rest).1
            (copyAll (⟨st.heap ++ [readD st a]⟩ : St) rest).2 = resolve st rest := by
          rw [ih4]
          unfold resolve
          exact List.map_eq_map_iff.mpr
            (fun q hq => by rw [readD_append st _ q.2 (hrest q hq)])
        have hhd : readD (copyAll (⟨st.heap ++ [readD st a]⟩ : St) rest).1 st.heap.length
            = readD st a := by
          have h1 : readD (copyAll (⟨st.heap ++ [readD st a]⟩ : St) rest).1 st.heap.length
              = readD (⟨st.heap ++ [readD st a]⟩ : St) st.heap.length := by
            have : (copyAll (⟨st.heap ++ [readD st a]⟩ : St) rest).1
                = ⟨(⟨st.heap ++ [readD st a]⟩ : St).heap
                    ++ rest.map (fun q => readD (⟨st.heap ++ [readD st a]⟩ : St) q.2)⟩ := by
              rw [← ih1]
            rw [this]
            refine readD_append _ _ _ ?_
            simp only [List.length_append, List.length_cons, List.length_nil]
            omega
          rw [h1, readD_append_self]
        unfold resolve at hres ⊢
        simp only [List.map_cons, hhd, hres]

theorem lookup_mem_values {α : Type} (l : List (String × α)) (k : String) (v : α)
    (h : l.lookup k = some v) : v ∈ l.map Prod.snd := by
  induction l with
  | nil => simp [List.lookup] at h
  | cons p rest ih =>
      rw [List.lookup] at h
      split at h
      · simp only [Option.some.injEq] at h
        simp [← h]
      · simpa using Or.inr (by simpa using ih h)

theorem lookup_eq_none_keys {α : Type} (l : List (String × α)) (k : String) :
    l.lookup k = Option.none ↔ k ∉ l.map Prod.fst := by
  induction l with
  | nil => simp [List.lookup]
  | cons p rest ih =>
      rw [List.lookup]
      constructor
      · intro h
        split at h
        · simp at h
        · rename_i hb
          have hk : k ≠ p.1 := by simpa using hb
          simp only [List.map_cons, List.mem_cons]
          rintro (he | hm)
          · exact hk he
          · exact (ih.mp h) hm
      · intro h
        simp only [List.map_cons, List.mem_cons] at h
        push_neg at h
        obtain ⟨h1, h2⟩ := h
        have hb : (k == p.1) = false := beq_eq_false_iff_ne.mpr h1
        simp only [hb]
        exact ih.mpr h2

theorem applyExtensions_length (exts : List (String × List Question)) :
    ∀ (st : St) (domains : List (String × Nat)),
    (applyExtensions st domains exts).heap.length = st.heap.length := by
  induction exts with
  | nil => intro st domains; rfl
  | cons e rest ih =>
      intro st domains
      obtain ⟨did, qs⟩ := e
      rw [applyExtensions]
      cases hl : domains.lookup did with
      | none => simp only; exact ih st domains
      | some a =>
          simp only
          rw [ih, writeD_length]

theorem applyExtensions_frame (exts : List (String × List Question)) :
    ∀ (st : St) (domains : List (String × Nat)) (L : Nat),
    (∀ p ∈ domains, L ≤ p.2) → ∀ b, b < L →
    (applyExtensions st domains exts).heap[b]? = st.heap[b]? := by
  induction exts with
  | nil => intro st domains L _ b _; rfl
  | cons e rest ih =>
      intro st domains L hge b hb
      obtain ⟨did, qs⟩ := e
      rw [applyExtensions]
      cases hl : domains.lookup did with
      | none => simp only; exact ih st domains L hge b hb
      | some a =>
          simp only
          rw [ih _ domains L hge b hb]
          have haL : L ≤ a := by
            have hmem : a ∈ domains.map Prod.snd := lookup_mem_values domains did a hl
            obtain ⟨q, hq, hqa⟩ := List.mem_map.mp hmem
            exact hqa ▸ hge q hq
          have hne : a ≠ b := by omega
          rw [writeD]
          simp [List.getElem?_set_ne hne]

theorem resolve_keys (st : St) (refs : List (String × Nat)) :
    (resolve st refs).map Prod.fst = refs.map Prod.fst := by
  simp [resolve, List.map_map, Function.comp]

theorem extendAssoc_not_found (l : List (String × Domain)) (did : String)
    (qs : List Question) (h : l.lookup did = Option.none) :
    extendAssoc l did qs = l := by
  induction l with
  | nil => rfl
  | cons p rest ih =>
      rw [List.lookup] at h
      rw [extendAssoc]
      split
      · rename_i he
        rw [he] at h
        simp at h
      · rename_i he
        have hb : (did == p.1) = false := beq_eq_false_iff_ne.mpr (fun x => he x.symm)
        rw [hb] at h
        rw [ih h]

theorem resolve_writeD_extend (qs : List Question) (st : St) :
    ∀ (domains : List (String × Nat)) (did : String) (a : Nat),
    (∀ p ∈ domains, p.2 < st.heap.length) →
    (domains.map Prod.snd).Nodup →
    domains.lookup did = some a →
    resolve (writeD st a { readD st a with
        questions := (readD st a).questions ++ qs }) domains
      = extendAssoc (resolve st domains) did qs := by
  intro domains
  induction domains with
  | nil => intro did a _ _ hl; simp [List.lookup] at hl
  | cons p rest ih =>
      intro did a hval hnd hl
      rw [List.map_cons] at hnd
      obtain ⟨hpn, hndr⟩ := List.nodup_cons.mp hnd
      have hvalr : ∀ q ∈ rest, q.2 < st.heap.length :=
        fun q hq => hval q (List.mem_cons_of_mem _ hq)
      rw [List.lookup] at hl
      by_cases hk : did = p.1
      · have hb : (did == p.1) = true := beq_iff_eq.mpr hk
        rw [hb] at hl
        simp only [Option.some.injEq] at hl
        subst hl
        unfold resolve
        rw [List.map_cons, List.map_cons, extendAssoc, if_pos hk.symm]
        congr 1
        · rw [readD_writeD_self st p.2 _ (hval p (List.mem_cons_self _ _))]
        · refine List.map_eq_map_iff.mpr (fun q hq => ?_)
          have hqa : q.2 ≠ p.2 := by
            intro he
            exact hpn (he ▸ List.mem_map_of_mem Prod.snd hq)
          rw [readD_writeD_ne st p.2 q.2 _ (fun he => hqa he.symm)]
      · have hb : (did == p.1) = false := beq_eq_false_iff_ne.mpr hk
        rw [hb] at hl
        have haR : a ∈ rest.map Prod.snd := lookup_mem_values rest did a hl
        have hpa : p.2 ≠ a := fun he => hpn (he ▸ haR)
        unfold resolve
        rw [List.map_cons, List.map_cons, extendAssoc, if_neg (fun he => hk he.symm)]
        congr 1
        · rw [readD_writeD_ne st a p.2 _ (fun he => hpa he.symm)]
        · have := ih did a hvalr hndr hl
          unfold resolve at this
          exact this

theorem applyExtensions_resolve (exts : List (String × List Question)) :
    ∀ (st : St) (domains : List (String × Nat)),
    (∀ p ∈ domains, p.2 < st.heap.length) →
    (domains.map Prod.snd).Nodup →
    resolve (applyExtensions st domains exts) domains
      = applyExtsPure (resolve st domains) exts := by
  induction exts with
  | nil => intro st domains _ _; rfl
  | cons e rest ih =>
      intro st domains hval hnd
      obtain ⟨did, qs⟩ := e
      rw [applyExtensions, applyExtsPure]
      cases hl : domains.lookup did with
      | none =>
          simp only
          rw [ih st domains hval hnd]
          have hres : (resolve st domains).lookup did = Option.none := by
            rw [lookup_eq_none_keys, resolve_keys]
            exact (lookup_eq_none_keys domains did).mp hl
          rw [extendAssoc_not_found _ _ _ hres]
      | some a =>
          simp only
          have hval' : ∀ p ∈ domains,
              p.2 < (writeD st a { readD st a with
                questions := (readD st a).questions ++ qs }).heap.length := by
            intro p hp
            rw [writeD_length]
            exact hval p hp
          rw [ih _ domains hval' hnd,
            resolve_writeD_extend qs st domains did a hval hnd hl]

theorem extendAssoc_keys (l : List (String × Domain)) (did : String)
    (qs : List Question) :
    (extendAssoc l did qs).map Prod.fst = l.map Prod.fst := by
  induction l with
  | nil => rfl
  | cons p rest ih =>
      rw [extendAssoc]
      split
      · simp
      · simpa using ih

theorem applyExtsPure_keys (exts : List (String × List Question)) :
    ∀ l : List (String × Domain),
    (applyExtsPure l exts).map Prod.fst = l.map Prod.fst := by
  induction exts with
  | nil => intro l; rfl
  | cons e rest ih =>
      intro l
      obtain ⟨did, qs⟩ := e
      rw [applyExtsPure, ih, extendAssoc_keys]

theorem extendAssoc_mem_update (l : List (String × Domain)) (did : String)
    (d : Domain) (qs : List Question) (hnd : (l.map Prod.fst).Nodup)
    (h : (did, d) ∈ l) :
    (did, { d with questions := d.questions ++ qs }) ∈ extendAssoc l did qs := by
  induction l with
  | nil => simp at h
  | cons p rest ih =>
      rw [List.map_cons] at hnd
      obtain ⟨hpn, hndr⟩ := List.nodup_cons.mp hnd
      rw [extendAssoc]
      rcases List.mem_cons.mp h with rfl | hx
      · rw [if_pos rfl]
        exact List.mem_cons_self _ _
      · split
        · rename_i he
          exact absurd (he ▸ List.mem_map_of_mem Prod.fst hx) hpn
        · exact List.mem_cons_of_mem _ (ih hndr hx)

theorem extendAssoc_mem_other (l : List (String × Domain)) (k : String)
    (qs : List Question) (did : String) (d : Domain)
    (h : (did, d) ∈ l) (hne : did ≠ k) : (did, d) ∈ extendAssoc l k qs := by
  induction l with
  | nil => simp at h
  | cons p rest ih =>
      rw [extendAssoc]
      rcases List.mem_cons.mp h with rfl | hx
      · rw [if_neg (fun he => hne he)]
        exact List.mem_cons_self _ _
      · split
        · exact List.mem_cons_of_mem _ hx
        · exact List.mem_cons_of_mem _ (ih hx)

theorem applyExtsPure_lookup (exts : List (String × List Question)) :
    ∀ (l : List (String × Domain)) (did : String) (d : Domain),
    (l.map Prod.fst).Nodup → (exts.map Prod.fst).Nodup → (did, d) ∈ l →
    (applyExtsPure l exts).lookup did
      = some { d with questions := d.questions ++ ((exts.lookup did).getD []) } := by
  induction exts with
  | nil =>
      intro l did d hnd _ h
      rw [applyExtsPure]
      have : ({ d with questions := d.questions ++ (((
          [] : List (String × List Question)).lookup did).getD []) }) = d := by
        simp
      rw [this]
      exact lookup_of_mem_nodup l did d hnd h
  | cons e rest ih =>
      intro l did d hnd hext h
      obtain ⟨k, qs⟩ := e
      rw [List.map_cons] at hext
      obtain ⟨hk, hrest⟩ := List.nodup_cons.mp hext
      rw [applyExtsPure]
      by_cases hdk : did = k
      · subst hdk
        have h1 : (did, { d with questions := d.questions ++ qs }) ∈ extendAssoc l did qs :=
          extendAssoc_mem_update l did d qs hnd h
        have hnd1 : ((extendAssoc l did qs).map Prod.fst).Nodup := by
          rw [extendAssoc_keys]; exact hnd
        rw [ih (extendAssoc l did qs) did _ hnd1 hrest h1]
        have hrn : rest.lookup did = Option.none := (lookup_eq_none_keys rest did).mpr hk
        have hhead : (((did, qs) :: rest) : List (String × List Question)).lookup did
            = some qs := by
          simp [List.lookup]
        rw [hhead, hrn]
        simp
      · have h2 : (did, d) ∈ extendAssoc l k qs := extendAssoc_mem_other l k qs did d h hdk
        have hnd2 : ((extendAssoc l k qs).map Prod.fst).Nodup := by
          rw [extendAssoc_keys]; exact hnd
        rw [ih (extendAssoc l k qs) did d hnd2 hrest h2]
        have htail : (((k, qs) :: rest) : List (String × List Question)).lookup did
            = rest.lookup did := by
          simp [List.lookup, beq_eq_false_iff_ne.mpr hdk]
        rw [htail]

theorem build_none_eq (st : St) (refs : List (String × Nat))
    (sectors : List (String × SectorProfile)) :
    build_domains_for_sector st refs sectors Option.none
      = ((copyAll st refs).1, .ok (copyAll st refs).2) := rfl

theorem build_some_eq (st : St) (refs : List (String × Nat))
    (sectors : List (String × SectorProfile)) (s : String) :
    build_domains_for_sector st refs sectors (some s)
      = match sectors.lookup s with
        | Option.none => ((copyAll st refs).1, .error ("Secteur inconnu: " ++ s))
        | some sector => (applyExtensions (copyAll st refs).1 (copyAll st refs).2
            sector.extra_questions, .ok (copyAll st refs).2) := rfl

theorem copyAll_facts (st : St) (refs : List (String × Nat))
    (h : ∀ p ∈ refs, p.2 < st.heap.length) :
    (∀ p ∈ (copyAll st refs).2,
      st.heap.length ≤ p.2 ∧ p.2 < (copyAll st refs).1.heap.length) ∧
    ((copyAll st refs).2.map Prod.snd).Nodup ∧
    resolve (copyAll st refs).1 (copyAll st refs).2 = resolve st refs ∧
    (copyAll st refs).1.heap.length = st.heap.length + refs.length ∧
    (∀ b, b < st.heap.length → (copyAll st refs).1.heap[b]? = st.heap[b]?) := by
  obtain ⟨h1, h2, h3, h4⟩ := copyAll_spec refs st h
  have hlen : (copyAll st refs).1.heap.length = st.heap.length + refs.length := by
    rw [h1]
    simp
  refine ⟨?_, ?_, h4, hlen, ?_⟩
  · intro p hp
    have hm : p.2 ∈ (copyAll st refs).2.map Prod.snd := List.mem_map_of_mem Prod.snd hp
    rw [h3] at hm
    have := List.mem_range'_1.mp hm
    exact ⟨this.1, by rw [hlen]; omega⟩
  · rw [h3]
    simp [List.nodup_range']
  · intro b hb
    rw [h1]
    exact List.getElem?_append_left hb

theorem resolve_frame (st st' : St) (refs : List (String × Nat))
    (h : ∀ p ∈ refs, p.2 < st.heap.length)
    (hf : ∀ a, a < st.heap.length → st'.heap[a]? = st.heap[a]?) :
    resolve st' refs = resolve st refs := by
  unfold resolve
  refine List.map_eq_map_iff.mpr (fun p hp => ?_)
  have hr : readD st' p.2 = readD st p.2 := by
    rw [readD, readD, List.getD_eq_getElem?_getD, List.getD_eq_getElem?_getD,
      hf p.2 (h p hp)]
  rw [hr]

theorem build_frame (st : St) (commonRefs : List (String × Nat))
    (sectors : List (String × SectorProfile)) (sid : Option String)
    (h : ∀ p ∈ commonRefs, p.2 < st.heap.length) :
    ∀ a, a < st.heap.length →
    ((build_domains_for_sector st commonRefs sectors sid).1).heap[a]? = st.heap[a]? := by
  obtain ⟨hfr, hnd, hres, hlen, hfb⟩ := copyAll_facts st commonRefs h
  intro a ha
  cases sid with
  | none => rw [build_none_eq]; exact hfb a ha
  | some s =>
      rw [build_some_eq]
      cases hs : sectors.lookup s with
      | none =>
          simp only [hs]
          exact hfb a ha
      | some sector =>
          simp only [hs]
          rw [applyExtensions_frame sector.extra_questions _ _ st.heap.length
            (fun p hp => (hfr p hp).1) a ha]
          exact hfb a ha

theorem build_length (st : St) (commonRefs : List (String × Nat))
    (sectors : List (String × SectorProfile)) (sid : Option String)
    (h : ∀ p ∈ commonRefs, p.2 < st.heap.length) :
    ((build_domains_for_sector st commonRefs sectors sid).1).heap.length
      = st.heap.length + commonRefs.length := by
  obtain ⟨hfr, hnd, hres, hlen, hfb⟩ := copyAll_facts st commonRefs h
  cases sid with
  | none => rw [build_none_eq]; exact hlen
  | some s =>
      rw [build_some_eq]
      cases hs : sectors.lookup s with
      | none => simp only [hs]; exact hlen
      | some sector =>
          simp only [hs]
          rw [applyExtensions_length]
          exact hlen

theorem build_resolve_refines (st : St) (commonRefs : List (String × Nat))
    (sectors : List (String × SectorProfile)) (sid : Option String)
    (h : ∀ p ∈ commonRefs, p.2 < st.heap.length) :
    ((build_domains_for_sector st commonRefs sectors sid).2).map
        (resolve (build_domains_for_sector st commonRefs sectors sid).1)
      = buildPure (resolve st commonRefs) sectors sid := by
  obtain ⟨hfr, hnd, hres, hlen, hfb⟩ := copyAll_facts st commonRefs h
  cases sid with
  | none =>
      rw [build_none_eq]
      simp only [Except.map]
      rw [hres]
      rfl
  | some s =>
      rw [build_some_eq]
      cases hs : sectors.lookup s with
      | none => simp [buildPure, hs, Except.map]
      | some sector =>
          simp only [hs, buildPure, Except.map]
          rw [applyExtensions_resolve sector.extra_questions (copyAll st commonRefs).1
            (copyAll st commonRefs).2 (fun p hp => (hfr p hp).2) hnd, hres]

/-- C2: `build_domains_for_sector` never mutates the shared common-catalogue
objects — every store cell that existed before the call is unchanged after
it — and calling it twice with the same sector id yields value-equal results
(the returned domain dicts dereference to equal values). -/
theorem build_domains_no_mutation_deterministic (st : St)
    (commonRefs : List (String × Nat)) (sectors : List (String × SectorProfile))
    (sid : Option String)
    (h : ∀ p ∈ commonRefs, p.2 < st.heap.length) :
    (∀ a, a < st.heap.length →
      ((build_domains_for_sector st commonRefs sectors sid).1).heap[a]? = st.heap[a]?) ∧
    ((build_domains_for_sector st commonRefs sectors sid).2).map
        (resolve (build_domains_for_sector st commonRefs sectors sid).1)
      = ((build_domains_for_sector (build_domains_for_sector st commonRefs sectors sid).1
            commonRefs sectors sid).2).map
          (resolve (build_domains_for_sector
            (build_domains_for_sector st commonRefs sectors sid).1 commonRefs sectors sid).1) := by
  refine ⟨build_frame st commonRefs sectors sid h, ?_⟩
  have h1 : ∀ p ∈ commonRefs,
      p.2 < ((build_domains_for_sector st commonRefs sectors sid).1).heap.length := by
    intro p hp
    rw [build_length st commonRefs sectors sid h]
    have := h p hp
    omega
  rw [build_resolve_refines st commonRefs sectors sid h,
    build_resolve_refines _ commonRefs sectors sid h1,
    resolve_frame st _ commonRefs h (build_frame st commonRefs sectors sid h)]

/-- C8: with no sector id, `build_domains_for_sector` returns a copy of the
common catalogue that is value-equal to it but consists of entirely fresh
objects (no address is shared with the originals); with a present-but-unknown
sector id it fails with the unknown-sector `ValueError`. -/
theorem build_domains_none_and_unknown (st : St)
    (commonRefs : List (String × Nat)) (sectors : List (String × SectorProfile))
    (h : ∀ p ∈ commonRefs, p.2 < st.heap.length) :
    (∃ refsC,
      (build_domains_for_sector st commonRefs sectors Option.none).2 = .ok refsC ∧
      resolve (build_domains_for_sector st commonRefs sectors Option.none).1 refsC
        = resolve st commonRefs ∧
      (∀ p ∈ refsC, ∀ q ∈ commonRefs, p.2 ≠ q.2)) ∧
    (∀ s, sectors.lookup s = Option.none →
      (build_domains_for_sector st commonRefs sectors (some s)).2
        = .error ("Secteur inconnu: " ++ s)) := by
  obtain ⟨hfr, hnd, hres, hlen, hfb⟩ := copyAll_facts st commonRefs h
  constructor
  · refine ⟨(copyAll st commonRefs).2, ?_, ?_, ?_⟩
    · rw [build_none_eq]
    · rw [build_none_eq]
      exact hres
    · intro p hp q hq
      have h1 := (hfr p hp).1
      have h2 := h q hq
      omega
  · intro s hs
    rw [build_some_eq]
    simp only [hs]

/-- C9: for a known sector, `build_domains_for_sector` returns the deep copy
of the common catalogue where each domain named by the sector's extensions
gets the extra questions appended in source order (its question count grows
by the number of its extras), every other domain is unchanged, and an
extension naming an unknown domain id is silently dropped (the result's
domain ids are exactly the catalogue's). -/
theorem build_domains_known_sector (st : St) (commonRefs : List (String × Nat))
    (sectors : List (String × SectorProfile)) (s : String) (sector : SectorProfile)
    (hval : ∀ p ∈ commonRefs, p.2 < st.heap.length)
    (hs : sectors.lookup s = some sector)
    (hndk : (commonRefs.map Prod.fst).Nodup)
    (hnde : (sector.extra_questions.map Prod.fst).Nodup) :
    ∃ refsC,
      (build_domains_for_sector st commonRefs sectors (some s)).2 = .ok refsC ∧
      (resolve (build_domains_for_sector st commonRefs sectors (some s)).1 refsC).map Prod.fst
        = commonRefs.map Prod.fst ∧
      (∀ did d, (did, d) ∈ resolve st commonRefs →
        (resolve (build_domains_for_sector st commonRefs sectors (some s)).1 refsC).lookup did
          = some { d with questions := d.questions
              ++ ((sector.extra_questions.lookup did).getD []) } ∧
        ({ d with questions := d.questions
            ++ ((sector.extra_questions.lookup did).getD []) }).questions.length
          = d.questions.length + ((sector.extra_questions.lookup did).getD []).length) := by
  obtain ⟨hfr, hnd, hres, hlen, hfb⟩ := copyAll_facts st commonRefs hval
  have hbuild : build_domains_for_sector st commonRefs sectors (some s)
      = (applyExtensions (copyAll st commonRefs).1 (copyAll st commonRefs).2
          sector.extra_questions, .ok (copyAll st commonRefs).2) := by
    rw [build_some_eq]
    simp only [hs]
  have hresolved : resolve (build_domains_for_sector st commonRefs sectors (some s)).1
      (copyAll st commonRefs).2
      = applyExtsPure (resolve st commonRefs) sector.extra_questions := by
    rw [hbuild]
    rw [applyExtensions_resolve sector.extra_questions (copyAll st commonRefs).1
      (copyAll st commonRefs).2 (fun p hp => (hfr p hp).2) hnd, hres]
  refine ⟨(copyAll st commonRefs).2, by rw [hbuild], ?_, ?_⟩
  · rw [hresolved, applyExtsPure_keys, resolve_keys]
  · intro did d hmem
    have hndres : ((resolve st commonRefs).map Prod.fst).Nodup := by
      rw [resolve_keys]
      exact hndk
    refine ⟨?_, by simp⟩
    rw [hresolved]
    exact applyExtsPure_lookup sector.extra_questions (resolve st commonRefs)
      did d hndres hnde hmem

/-- Concrete demo store: two catalogue domain objects. -/
def DEMO_ST : St :=
  ⟨[⟨"finance", "Finance", "", [⟨"f1", "stars", "t", 1⟩]⟩,
    ⟨"rh", "RH", "", [⟨"r1", "stars", "t", 1⟩]⟩]⟩

/-- Concrete demo catalogue dict: domain id → store address. -/
def DEMO_REFS : List (String × Nat) := [("finance", 0), ("rh", 1)]

/-- Concrete demo sector: extends `"rh"` and names an unknown domain. -/
def DEMO_TECH : SectorProfile :=
  ⟨"tech", "Tech", [("rh", [⟨"rh_t1", "stars", "t", 1⟩]),
                    ("zzz", [⟨"z1", "stars", "t", 1⟩])]⟩

/-- Concrete demo sector dict. -/
def DEMO_SECTORS : List (String × SectorProfile) := [("tech", DEMO_TECH)]

theorem build_domains_no_mutation_deterministic_witness :
    (∀ a, a < DEMO_ST.heap.length →
      ((build_domains_for_sector DEMO_ST DEMO_REFS DEMO_SECTORS (some "tech")).1).heap[a]?
        = DEMO_ST.heap[a]?) ∧
    ((build_domains_for_sector DEMO_ST DEMO_REFS DEMO_SECTORS (some "tech")).2).map
        (resolve (build_domains_for_sector DEMO_ST DEMO_REFS DEMO_SECTORS (some "tech")).1)
      = ((build_domains_for_sector
            (build_domains_for_sector DEMO_ST DEMO_REFS DEMO_SECTORS (some "tech")).1
            DEMO_REFS DEMO_SECTORS (some "tech")).2).map
          (resolve (build_domains_for_sector
            (build_domains_for_sector DEMO_ST DEMO_REFS DEMO_SECTORS (some "tech")).1
            DEMO_REFS DEMO_SECTORS (some "tech")).1) :=
  build_domains_no_mutation_deterministic DEMO_ST DEMO_REFS DEMO_SECTORS (some "tech")
    (by with_unfolding_all decide)

theorem build_domains_none_and_unknown_witness :
    ((build_domains_for_sector DEMO_ST DEMO_REFS DEMO_SECTORS Option.none).2
      = .ok [("finance", 2), ("rh", 3)]) ∧
    ((∃ refsC,
      (build_domains_for_sector DEMO_ST DEMO_REFS DEMO_SECTORS Option.none).2 = .ok refsC ∧
      resolve (build_domains_for_sector DEMO_ST DEMO_REFS DEMO_SECTORS Option.none).1 refsC
        = resolve DEMO_ST DEMO_REFS ∧
      (∀ p ∈ refsC, ∀ q ∈ DEMO_REFS, p.2 ≠ q.2)) ∧
    (∀ s, DEMO_SECTORS.lookup s = Option.none →
      (build_domains_for_sector DEMO_ST DEMO_REFS DEMO_SECTORS (some s)).2
        = .error ("Secteur inconnu: " ++ s))) :=
  ⟨by with_unfolding_all decide,
   build_domains_none_and_unknown DEMO_ST DEMO_REFS DEMO_SECTORS
     (by with_unfolding_all decide)⟩

theorem build_domains_known_sector_witness :
    ((resolve (build_domains_for_sector DEMO_ST DEMO_REFS DEMO_SECTORS (some "tech")).1
        [("finance", 2), ("rh", 3)]).lookup "rh"
      = some ⟨"rh", "RH", "", [⟨"r1", "stars", "t", 1⟩, ⟨"rh_t1", "stars", "t", 1⟩]⟩) ∧
    (∃ refsC,
      (build_domains_for_sector DEMO_ST DEMO_REFS DEMO_SECTORS (some "tech")).2 = .ok refsC ∧
      (resolve (build_domains_for_sector DEMO_ST DEMO_REFS DEMO_SECTORS (some "tech")).1
          refsC).map Prod.fst = DEMO_REFS.map Prod.fst ∧
      (∀ did d, (did, d) ∈ resolve DEMO_ST DEMO_REFS →
        (resolve (build_domains_for_sector DEMO_ST DEMO_REFS DEMO_SECTORS (some "tech")).1
            refsC).lookup did
          = some { d with questions := d.questions
              ++ ((DEMO_TECH.extra_questions.lookup did).getD []) } ∧
        ({ d with questions := d.questions
            ++ ((DEMO_TECH.extra_questions.lookup did).getD []) }).questions.length
          = d.questions.length + ((DEMO_TECH.extra_questions.lookup did).getD []).length)) :=
  ⟨by with_unfolding_all decide,
   build_domains_known_sector DEMO_ST DEMO_REFS DEMO_SECTORS "tech" DEMO_TECH
     (by with_unfolding_all decide) (by with_unfolding_all decide)
     (by with_unfolding_all decide) (by with_unfolding_all decide)⟩

end Diag
